import Mathlib

/-!
Shallow embedding of `sway-core/src/ir_generation/storage.rs`: the storage
key derivation (`get_storage_key`, `add_to_b256`) and the two serializers
(`serialize_to_words`, `serialize_to_storage_initializers`), together with
theorems about the storage layout they compute.

Rust panics (`unimplemented!`, `assert!`, `unreachable!`, arena indexing and
the `uint` crate's panic-on-overflow addition) are modelled as `Except`
errors; possible non-termination of the union recursion is modelled with an
explicit fuel parameter.  Machine bytes are `Nat` values kept below 256 by
all producers; the SHA-256 hash used by `get_storage_key` is an opaque
parameter `hash : String → Bytes32` of the key derivation, since no claim
depends on concrete digest values.
-/

namespace SwayStorage

/-- A byte, kept below 256 by all producers of the model. -/
abbrev Byte := Nat

/-- Model of `fuel_types::Bytes8`: an 8-byte word. -/
abbrev Bytes8 := List Byte

/-- Model of `fuel_types::Bytes32`: a 32-byte storage slot or key. -/
abbrev Bytes32 := List Byte

/-- Model of `sway_ir::irtype::Type`.  Aggregate-shaped types carry the index
of their `AggregateContent` in the shared context's arena, as in the source
where `Type::Struct(aggregate)` holds a key into `context.aggregates`. -/
inductive Ty where
  | unit
  | bool
  | uint (width : Nat)
  | b256
  | string (n : Nat)
  | array (agg : Nat)
  | struct (agg : Nat)
  | union (agg : Nat)
deriving DecidableEq

/-- Model of `sway_ir::irtype::AggregateContent`. -/
inductive AggregateContent where
  | fieldTypes (tys : List Ty)
  | arrayType (elem : Ty) (len : Nat)
deriving DecidableEq

mutual
/-- Model of `sway_ir::constant::ConstantValue`. -/
inductive ConstantValue where
  | undef
  | unit
  | bool (b : Bool)
  | uint (n : Nat)
  | b256 (b : List Byte)
  | string (s : List Byte)
  | array (els : List Constant)
  | struct (els : List Constant)

/-- Model of `sway_ir::constant::Constant`: a payload paired with the type
the constant itself carries (`constant.ty` in the source, used by the union
arm of `serialize_to_words`). -/
inductive Constant where
  | mk (ty : Ty) (value : ConstantValue)
end

/-- The type field of a constant, as `constant.ty` in the source. -/
def Constant.ty : Constant → Ty
  | .mk t _ => t

/-- The value field of a constant, as `constant.value` in the source. -/
def Constant.value : Constant → ConstantValue
  | .mk _ v => v

/-- Model of `sway_ir::context::Context`: the arena of aggregate contents,
looked up by index as `context.aggregates[aggregate.0]` in the source. -/
structure Context where
  aggregates : List AggregateContent

/-- The distinct fatal outcomes of the Rust code: `unimplemented!` for
arrays, a failed `assert!`, the `unreachable!("Wrong content for struct.")`
arm, an out-of-bounds arena index, the `uint` crate's panic on 256-bit
addition overflow, and exhaustion of the recursion fuel. -/
inductive Fault where
  | notImplemented
  | assertFailed
  | wrongStructContent
  | badAggregate
  | overflowPanic
  | outOfFuel
deriving DecidableEq

/-- Big-endian byte decoding: the unsigned integer denoted by a byte list. -/
def beNat (l : List Byte) : Nat := l.foldl (fun acc b => acc * 256 + b) 0

/-- Big-endian byte encoding of `n` into exactly `k` bytes (low `8·k` bits). -/
def beBytes : Nat → Nat → List Byte
  | 0, _ => []
  | k + 1, n => (n / 256 ^ k) % 256 :: beBytes k n

/-- An all-zero 8-byte word, `Bytes8::new([0; 8])` in the source. -/
def zeroWord : Bytes8 := List.replicate 8 0

/-- Group a byte list into consecutive `k`-byte chunks, mirroring the
source's indexing `(0..len / k).map(|i| l[k*i .. k*i+k])`; a trailing
remainder shorter than `k` is dropped, exactly as the integer division
`len / k` drops it. -/
def chunkBytes (k : Nat) (l : List Byte) : List (List Byte) :=
  (List.range (l.length / k)).map (fun i => (l.drop (k * i)).take k)

/-- The storage domain separator `sway_utils::constants::STORAGE_DOMAIN_SEPARATOR`,
documented at its use site: the key is `sha256("storage_<ix>_<i1>_<i2>_..")`. -/
def STORAGE_DOMAIN_SEPARATOR : String := "storage_"

/-- Model of `get_storage_key`: fold the state index and subfield indices
into the domain-separated string and hash it.  The SHA-256 hash itself is
the opaque parameter `hash`. -/
def get_storage_key (hash : String → Bytes32) (ix : Nat) (indices : List Nat) : Bytes32 :=
  hash (indices.foldl (fun acc i => acc ++ "_" ++ toString i)
    (STORAGE_DOMAIN_SEPARATOR ++ toString ix))

/-- Model of `add_to_b256`: interpret the 32 bytes as a big-endian 256-bit
integer and add the 64-bit offset with the `uint` crate's `+`, which panics
(modelled as `none`) when the sum does not fit in 256 bits. -/
def add_to_b256 (x : Bytes32) (y : Nat) : Option Bytes32 :=
  if beNat x + y < 2 ^ 256 then some (beBytes 32 (beNat x + y)) else none

/-- Modelled from the spec: `ir_type_size_in_bytes(context, ty)` lives in
`sway-core/src/asm_generation/from_ir.rs`, which is not part of the given
sources; the spec describes it only as the external utility computing a
type's total byte footprint.  Following the spec's data model — scalars are
one 8-byte word, a 256-bit blob four words, a string of capacity `n` is
measured in whole words, a struct is the concatenation of its fields and a
tagged union is "stored at the fixed size of its largest variant" — the
model gives scalars 8 bytes, `b256` 32 bytes, strings `n` rounded up to
word alignment, structs the sum of their field sizes, unions the maximum of
their variant sizes, and arrays the element size times the length.
Recursion through the aggregate arena is bounded by `fuel` (0 past it). -/
def ir_type_size_in_bytes : Nat → Context → Ty → Nat
  | _, _, .unit => 8
  | _, _, .bool => 8
  | _, _, .uint _ => 8
  | _, _, .b256 => 32
  | _, _, .string n => (n + 7) / 8 * 8
  | 0, _, .array _ => 0
  | 0, _, .struct _ => 0
  | 0, _, .union _ => 0
  | fuel + 1, context, .array agg =>
    match context.aggregates.get? agg with
    | some (.arrayType elem len) => ir_type_size_in_bytes fuel context elem * len
    | _ => 0
  | fuel + 1, context, .struct agg =>
    match context.aggregates.get? agg with
    | some (.fieldTypes tys) => (tys.map (ir_type_size_in_bytes fuel context)).sum
    | _ => 0
  | fuel + 1, context, .union agg =>
    match context.aggregates.get? agg with
    | some (.fieldTypes tys) => (tys.map (ir_type_size_in_bytes fuel context)).foldr max 0
    | _ => 0

/-- Model of `serialize_to_words`.  The match arms appear in source order;
`fuel` decreases on every recursive call (the union arm of the source can
recurse without structural descent). -/
def serialize_to_words : Nat → Constant → Context → Ty → Except Fault (List Bytes8)
  | 0, _, _, _ => .error .outOfFuel
  | fuel + 1, c, context, ty =>
    match ty, c.value with
    | _, .undef => .ok []
    | .unit, .unit => .ok [zeroWord]
    | .bool, .bool b =>
      .ok [List.replicate 7 0 ++ [if b then 1 else 0]]
    | .uint _, .uint n => .ok [beBytes 8 n]
    | .b256, .b256 b =>
      .ok ((List.range 4).map (fun i => (b.drop (8 * i)).take 8))
    | .string _, .string s =>
      let padded := s ++ List.replicate ((s.length + 3) / 4 * 4 - s.length) 0
      if padded.length % 8 = 0 then
        .ok (chunkBytes 8 padded)
      else
        .error .assertFailed
    | .array _, .array _ => .error .notImplemented
    | .struct agg, .struct vec =>
      match context.aggregates.get? agg with
      | some (.fieldTypes field_tys) =>
        ((vec.zip field_tys).mapM
          (fun p => serialize_to_words fuel p.1 context p.2)).map List.flatten
      | some _ => .error .wrongStructContent
      | none => .error .badAggregate
    | .union _, _ =>
      let value_size_in_words := ir_type_size_in_bytes fuel context ty / 8
      let constant_size_in_words := ir_type_size_in_bytes fuel context c.ty / 8
      if constant_size_in_words ≤ value_size_in_words then
        (serialize_to_words fuel c context c.ty).map
          (fun ws =>
            List.replicate (value_size_in_words - constant_size_in_words) zeroWord ++ ws)
      else
        .error .assertFailed
    | _, _ => .ok []

/-- Model of `sway_types::StorageInitializer`: a (slot key, 32-byte value)
pair. -/
structure StorageInitializer where
  slot : Bytes32
  value : Bytes32
deriving DecidableEq

/-- The body of the shared `(Type::Union(_), _) | (Type::String(_), _)` arm
of `serialize_to_storage_initializers`: pack the constant into words via
`serialize_to_words`, right-pad with zero words to a multiple of 4 words,
assert divisibility by 4, and zip the slot keys with the 32-byte chunks.
The source builds a lazy iterator of keys and zips it with the value
chunks, so only the first `min(slot_count, padded_word_count / 4)` keys are
ever computed; the model therefore takes the minimum first and only then
runs `add_to_b256`, whose overflow panic becomes `Fault.overflowPanic`. -/
def packed_arm (fuel : Nat) (hash : String → Bytes32) (c : Constant)
    (context : Context) (ix : Nat) (ty : Ty) (indices : List Nat) :
    Except Fault (List StorageInitializer) :=
  match serialize_to_words fuel c context ty with
  | .error e => .error e
  | .ok words =>
    let packed :=
      words ++ List.replicate ((words.length + 3) / 4 * 4 - words.length) zeroWord
    if packed.length % 4 = 0 then
      let slot_count := (ir_type_size_in_bytes fuel context ty + 31) / 32
      (List.range (min slot_count (packed.length / 4))).mapM
        (fun i =>
          match add_to_b256 (get_storage_key hash ix indices) i with
          | some k => .ok ⟨k, ((packed.drop (4 * i)).take 4).flatten⟩
          | none => .error .overflowPanic)
    else
      .error .assertFailed

/-- Model of `serialize_to_storage_initializers`.  The match arms appear in
source order; the union/string arm is `packed_arm`. -/
def serialize_to_storage_initializers :
    Nat → (String → Bytes32) → Constant → Context → Nat → Ty → List Nat →
    Except Fault (List StorageInitializer)
  | 0, _, _, _, _, _, _ => .error .outOfFuel
  | fuel + 1, hash, c, context, ix, ty, indices =>
    match ty, c.value with
    | _, .undef => .ok []
    | .unit, .unit =>
      .ok [⟨get_storage_key hash ix indices, List.replicate 32 0⟩]
    | .bool, .bool b =>
      .ok [⟨get_storage_key hash ix indices,
            List.replicate 31 0 ++ [if b then 1 else 0]⟩]
    | .uint _, .uint n =>
      .ok [⟨get_storage_key hash ix indices, List.replicate 24 0 ++ beBytes 8 n⟩]
    | .b256, .b256 b =>
      .ok [⟨get_storage_key hash ix indices, b⟩]
    | .array _, .array _ => .error .notImplemented
    | .struct agg, .struct vec =>
      match context.aggregates.get? agg with
      | some (.fieldTypes field_tys) =>
        (((vec.zip field_tys).enum.mapM
          (fun p =>
            serialize_to_storage_initializers fuel hash p.2.1 context ix p.2.2
              (indices ++ [p.1]))).map List.flatten)
      | some _ => .error .wrongStructContent
      | none => .error .badAggregate
    | .union _, _ | .string _, _ =>
      packed_arm fuel hash c context ix ty indices
    | _, _ => .ok []

/-- A zero-filled hash standing in for SHA-256 in concrete computations. -/
def hash0 : String → Bytes32 := fun _ => List.replicate 32 0

/-- A context holding one struct aggregate with fields `bool` and `u64`. -/
def ctxBoolU64 : Context := ⟨[.fieldTypes [.bool, .uint 64]]⟩

/-- A context holding one union aggregate with variants `u64` and `b256`. -/
def ctxUnionU64B256 : Context := ⟨[.fieldTypes [.uint 64, .b256]]⟩

/-- The boolean constant `true`. -/
def boolTrueC : Constant := .mk .bool (.bool true)

/-- The 64-bit constant `5`. -/
def uintFiveC : Constant := .mk (.uint 64) (.uint 5)

theorem beNat_foldl (l : List Byte) (acc : Nat) :
    l.foldl (fun a b => a * 256 + b) acc = acc * 256 ^ l.length + beNat l := by
  induction l generalizing acc with
  | nil => simp [beNat]
  | cons x xs ih =>
    simp only [beNat, List.foldl_cons, List.length_cons]
    rw [ih (acc * 256 + x), ih (0 * 256 + x)]
    ring

theorem beNat_cons (x : Byte) (l : List Byte) :
    beNat (x :: l) = x * 256 ^ l.length + beNat l := by
  simp only [beNat, List.foldl_cons]
  simpa using beNat_foldl l (0 * 256 + x)

theorem beBytes_length (k n : Nat) : (beBytes k n).length = k := by
  induction k generalizing n with
  | zero => rfl
  | succ k ih => simp [beBytes, ih]

theorem pow256_eq (k : Nat) : (256 : Nat) ^ k = 2 ^ (8 * k) := by
  rw [Nat.pow_mul]

theorem beNat_beBytes (k n : Nat) : beNat (beBytes k n) = n % 256 ^ k := by
  induction k generalizing n with
  | zero => simp [beBytes, beNat, Nat.mod_one]
  | succ k ih =>
    rw [beBytes, beNat_cons, beBytes_length, ih, pow_succ, Nat.mod_mul]
    ring

theorem chunkBytes_length (k : Nat) (l : List Byte) :
    (chunkBytes k l).length = l.length / k := by
  simp [chunkBytes]

theorem chunkBytes_flatten (k m : Nat) (hk : 0 < k) :
    ∀ l : List Byte, l.length = k * m → (chunkBytes k l).flatten = l := by
  induction m with
  | zero =>
    intro l hl
    rw [Nat.mul_zero] at hl
    rw [List.eq_nil_of_length_eq_zero hl]
    simp [chunkBytes]
  | succ m ih =>
    intro l hl
    have hdiv : l.length / k = m + 1 := by
      rw [hl, Nat.mul_div_cancel_left _ hk]
    have hdrop : (l.drop k).length = k * m := by
      simp [List.length_drop, hl, Nat.mul_succ]
    have htail : ∀ i : Nat, (l.drop (k * (i + 1))).take k =
        ((l.drop k).drop (k * i)).take k := by
      intro i
      rw [List.drop_drop, Nat.mul_succ, Nat.add_comm (k * i) k, Nat.add_comm]
    have hchunks : chunkBytes k l = l.take k :: chunkBytes k (l.drop k) := by
      unfold chunkBytes
      rw [hdiv, hdrop, Nat.mul_div_cancel_left _ hk,
        List.range_succ_eq_map, List.map_cons, List.map_map]
      refine congrArg₂ _ (by simp) ?_
      refine List.map_congr_left (fun i _ => ?_)
      simpa using htail i
    rw [hchunks, List.flatten_cons, ih (l.drop k) hdrop,
      List.take_append_drop]

theorem mapM_ok {E A B : Type} (f : A → Except E B) (g : A → B) :
    ∀ L : List A, (∀ x ∈ L, f x = .ok (g x)) → L.mapM f = .ok (L.map g) := by
  intro L h
  induction L with
  | nil => rfl
  | cons x xs ih =>
    rw [List.mapM_cons, h x (List.mem_cons_self x xs),
      ih (fun y hy => h y (List.mem_cons_of_mem x hy))]
    rfl

/-- Claim C3, counterexample: on the all-`0xff` key and offset 1 the sum is
`2^256`, the `uint` addition panics (modelled `none`), and the claimed
big-endian encoding of `(k + y) mod 2^256` is not returned. -/
theorem add_to_b256_overflow_counterexample :
    add_to_b256 (List.replicate 32 255) 1 = none ∧
    add_to_b256 (List.replicate 32 255) 1 ≠
      some (beBytes 32 ((beNat (List.replicate 32 255) + 1) % 2 ^ 256)) := by
  constructor
  · decide
  · decide

/-- Claim C3 (amended): whenever the 256-bit sum does not overflow,
`add_to_b256` returns exactly the 32-byte big-endian encoding of
`beNat x + y` (on overflow the underlying `uint` addition panics instead of
wrapping). -/
theorem add_to_b256_no_overflow (x : Bytes32) (y : Nat)
    (h : beNat x + y < 2 ^ 256) :
    add_to_b256 x y = some (beBytes 32 (beNat x + y)) ∧
    beNat (beBytes 32 (beNat x + y)) = beNat x + y ∧
    (beBytes 32 (beNat x + y)).length = 32 := by
  refine ⟨by unfold add_to_b256; rw [if_pos h], ?_, beBytes_length _ _⟩
  rw [beNat_beBytes]
  exact Nat.mod_eq_of_lt (by rw [pow256_eq]; exact h)

/-- Witness for the amended claim C3 at the zero key and offset 7. -/
theorem add_to_b256_no_overflow_witness :
    beNat (List.replicate 32 0) + 7 < 2 ^ 256 ∧
    (add_to_b256 (List.replicate 32 0) 7 =
        some (beBytes 32 (beNat (List.replicate 32 0) + 7)) ∧
      beNat (beBytes 32 (beNat (List.replicate 32 0) + 7)) =
        beNat (List.replicate 32 0) + 7 ∧
      (beBytes 32 (beNat (List.replicate 32 0) + 7)).length = 32) :=
  ⟨by decide, add_to_b256_no_overflow (List.replicate 32 0) 7 (by decide)⟩

/-- Claim C4: an array-typed constant with an array payload makes both
serializers fail with the `unimplemented!` fault and return no result. -/
theorem serialize_array_not_implemented (fuel : Nat) (hash : String → Bytes32)
    (context : Context) (ix : Nat) (indices : List Nat) (agg : Nat) (cty : Ty)
    (els : List Constant) :
    serialize_to_storage_initializers (fuel + 1) hash (.mk cty (.array els))
        context ix (.array agg) indices = .error .notImplemented ∧
    serialize_to_words (fuel + 1) (.mk cty (.array els)) context (.array agg) =
      .error .notImplemented :=
  ⟨rfl, rfl⟩

/-- Claim C5: an undefined constant serializes to the empty list in both
serializers, for every type, state index and path. -/
theorem serialize_undef_empty (fuel : Nat) (hash : String → Bytes32)
    (context : Context) (ix : Nat) (indices : List Nat) (ty cty : Ty) :
    serialize_to_storage_initializers (fuel + 1) hash (.mk cty .undef)
        context ix ty indices = .ok [] ∧
    serialize_to_words (fuel + 1) (.mk cty .undef) context ty = .ok [] := by
  cases ty <;> exact ⟨rfl, rfl⟩

/-- Claim C8: an unsigned-integer constant `n < 2^64` yields exactly one
initializer, at `get_storage_key ix path`, whose 32-byte value is 24 zero
bytes followed by the 8-byte big-endian encoding of `n`. -/
theorem serialize_uint_initializer (fuel : Nat) (hash : String → Bytes32)
    (context : Context) (ix : Nat) (indices : List Nat) (w n : Nat) (cty : Ty)
    (h : n < 2 ^ 64) :
    serialize_to_storage_initializers (fuel + 1) hash (.mk cty (.uint n))
        context ix (.uint w) indices =
      .ok [⟨get_storage_key hash ix indices,
            List.replicate 24 0 ++ beBytes 8 n⟩] ∧
    (beBytes 8 n).length = 8 ∧ beNat (beBytes 8 n) = n := by
  refine ⟨rfl, beBytes_length _ _, ?_⟩
  rw [beNat_beBytes]
  exact Nat.mod_eq_of_lt (by rw [pow256_eq]; exact h)

theorem zip_take_min {α β : Type} :
    ∀ (l : List α) (l' : List β),
      l.zip l' =
        (l.take (min l.length l'.length)).zip (l'.take (min l.length l'.length))
  | [], l' => by simp
  | x :: xs, [] => by simp
  | x :: xs, y :: ys => by
    simp only [List.length_cons, Nat.succ_min_succ, List.take_succ_cons,
      List.zip_cons_cons]
    rw [← zip_take_min xs ys]

/-- Claim C1, counterexample: the 8-byte string `"aaaaaaaa"` is encoded by
`serialize_to_words` as a single 8-byte word — the raw bytes with no
padding at all — so the word count is 1, not a multiple of 4, and the
total byte length is 8, not the next multiple of 32. -/
theorem serialize_to_words_string_counterexample :
    serialize_to_words 1 (.mk (.string 8) (.string (List.replicate 8 97))) ⟨[]⟩
        (.string 8) = .ok [List.replicate 8 97] ∧
    (1 : Nat) % 4 ≠ 0 := by
  exact ⟨rfl, by decide⟩

/-- Claim C1 (amended): `serialize_to_words` right-pads a string's raw bytes
with zeros only up to the next multiple of 4 bytes and then asserts 8-byte
word alignment; when that padded length is word-aligned (which makes it the
least multiple of 8 that is ≥ L) the result is the padded bytes grouped in
order into 8-byte words, so the word count is `⌈L / 8⌉`, not necessarily a
multiple of 4. -/
theorem serialize_to_words_string (fuel : Nat) (context : Context) (cty : Ty)
    (n : Nat) (s : List Byte)
    (h : (s.length + 3) / 4 * 4 % 8 = 0) :
    serialize_to_words (fuel + 1) (.mk cty (.string s)) context (.string n) =
      .ok (chunkBytes 8
        (s ++ List.replicate ((s.length + 3) / 4 * 4 - s.length) 0)) ∧
    (chunkBytes 8
        (s ++ List.replicate ((s.length + 3) / 4 * 4 - s.length) 0)).length =
      (s.length + 7) / 8 ∧
    (chunkBytes 8
        (s ++ List.replicate ((s.length + 3) / 4 * 4 - s.length) 0)).flatten =
      s ++ List.replicate ((s.length + 3) / 4 * 4 - s.length) 0 ∧
    s.length + ((s.length + 3) / 4 * 4 - s.length) = (s.length + 7) / 8 * 8 := by
  have hplen :
      (s ++ List.replicate ((s.length + 3) / 4 * 4 - s.length) 0).length =
        (s.length + 3) / 4 * 4 := by
    simp only [List.length_append, List.length_replicate]
    omega
  have hmod : (s ++ List.replicate ((s.length + 3) / 4 * 4 - s.length) 0).length
      % 8 = 0 := by rw [hplen]; exact h
  refine ⟨?_, ?_, ?_, by omega⟩
  · simp only [serialize_to_words, Constant.value]
    rw [if_pos hmod]
  · rw [chunkBytes_length, hplen]
    omega
  · refine chunkBytes_flatten 8 ((s.length + 7) / 8) (by decide) _ ?_
    rw [hplen]
    omega

/-- Witness for the amended claim C1 at a 13-byte string: 13 mod 8 = 5, so
the 4-byte padding reaches 16 bytes, which is word-aligned, giving 2 words. -/
theorem serialize_to_words_string_witness :
    (13 + 3) / 4 * 4 % 8 = 0 ∧
    (serialize_to_words 1 (.mk (.string 13)
          (.string (List.replicate 13 97))) ⟨[]⟩ (.string 13) =
      .ok (chunkBytes 8 (List.replicate 13 97 ++
        List.replicate (((List.replicate 13 (97 : Nat)).length + 3) / 4 * 4 -
          (List.replicate 13 (97 : Nat)).length) 0)) ∧
    (chunkBytes 8 (List.replicate 13 97 ++
        List.replicate (((List.replicate 13 (97 : Nat)).length + 3) / 4 * 4 -
          (List.replicate 13 (97 : Nat)).length) 0)).length =
      ((List.replicate 13 (97 : Nat)).length + 7) / 8 ∧
    (chunkBytes 8 (List.replicate 13 97 ++
        List.replicate (((List.replicate 13 (97 : Nat)).length + 3) / 4 * 4 -
          (List.replicate 13 (97 : Nat)).length) 0)).flatten =
      List.replicate 13 97 ++
        List.replicate (((List.replicate 13 (97 : Nat)).length + 3) / 4 * 4 -
          (List.replicate 13 (97 : Nat)).length) 0 ∧
    (List.replicate 13 (97 : Nat)).length +
        (((List.replicate 13 (97 : Nat)).length + 3) / 4 * 4 -
          (List.replicate 13 (97 : Nat)).length) =
      ((List.replicate 13 (97 : Nat)).length + 7) / 8 * 8) :=
  ⟨by decide, serialize_to_words_string 0 ⟨[]⟩ (.string 13) 13
    (List.replicate 13 97) (by decide)⟩

/-- Claim C9 (code bug): on the one-byte string `"a"` with declared capacity
1 the storage serializer aborts with the failed word-alignment assertion —
the code pads the string only to a 4-byte boundary before asserting 8-byte
alignment — instead of emitting the single (`⌈1/32⌉ = 1`) initializer the
round-trip law describes. -/
theorem serialize_string_storage_assert_failure :
    serialize_to_storage_initializers 2 hash0 (.mk (.string 1) (.string [97]))
        ⟨[]⟩ 0 (.string 1) [] = .error .assertFailed ∧
    (ir_type_size_in_bytes 2 ⟨[]⟩ (.string 1) + 31) / 32 = 1 :=
  ⟨rfl, rfl⟩

/-- Witness for claim C8 at `n = 5`, width 64, state index 0, empty path. -/
theorem serialize_uint_initializer_witness :
    5 < 2 ^ 64 ∧
    (serialize_to_storage_initializers 1 hash0 (.mk (.uint 64) (.uint 5))
        ⟨[]⟩ 0 (.uint 64) [] =
      .ok [⟨get_storage_key hash0 0 [], List.replicate 24 0 ++ beBytes 8 5⟩] ∧
    (beBytes 8 5).length = 8 ∧ beNat (beBytes 8 5) = 5) :=
  ⟨by decide, serialize_uint_initializer 0 hash0 ⟨[]⟩ 0 [] 64 5 (.uint 64) (by decide)⟩

/-- Claim C6: a struct constant is serialized field by field in declared
order, each recursive call receiving a fresh copy of the path extended with
that field's index (the base path itself is never changed, so every sibling
sees the same unextended base), and the per-field results are concatenated;
in particular a `{bool, u64}` struct yields exactly the two slots keyed at
the base path extended with 0 and with 1. -/
theorem serialize_struct_fields (fuel : Nat) (hash : String → Bytes32)
    (context : Context) (ix : Nat) (indices : List Nat) (agg : Nat)
    (cty cty2 cb cn : Ty) (vec : List Constant) (field_tys : List Ty)
    (b : Bool) (n : Nat)
    (hagg : context.aggregates.get? agg = some (.fieldTypes field_tys)) :
    serialize_to_storage_initializers (fuel + 1) hash (.mk cty (.struct vec))
        context ix (.struct agg) indices =
      (((vec.zip field_tys).enum.mapM
        (fun p => serialize_to_storage_initializers fuel hash p.2.1 context ix
          p.2.2 (indices ++ [p.1]))).map List.flatten) ∧
    (field_tys = [Ty.bool, Ty.uint 64] →
      serialize_to_storage_initializers (fuel + 2) hash
          (.mk cty2 (.struct [.mk cb (.bool b), .mk cn (.uint n)])) context ix
          (.struct agg) indices =
        .ok [⟨get_storage_key hash ix (indices ++ [0]),
              List.replicate 31 0 ++ [if b then 1 else 0]⟩,
             ⟨get_storage_key hash ix (indices ++ [1]),
              List.replicate 24 0 ++ beBytes 8 n⟩]) := by
  constructor
  · simp only [serialize_to_storage_initializers, Constant.value, hagg]
  · intro hft
    subst hft
    simp only [serialize_to_storage_initializers, Constant.value, hagg]
    rfl

/-- Witness for claim C6: the `{bool: true, u64: 5}` struct in a context
whose aggregate 0 has fields `bool` and `u64`, at state index 0 and empty
path. -/
theorem serialize_struct_fields_witness :
    ctxBoolU64.aggregates.get? 0 =
      some (.fieldTypes [Ty.bool, Ty.uint 64]) ∧
    (serialize_to_storage_initializers 1 hash0
        (.mk (.struct 0) (.struct [boolTrueC, uintFiveC])) ctxBoolU64 0
        (.struct 0) [] =
      ((([boolTrueC, uintFiveC].zip [Ty.bool, Ty.uint 64]).enum.mapM
        (fun p => serialize_to_storage_initializers 0 hash0 p.2.1 ctxBoolU64 0
          p.2.2 ([] ++ [p.1]))).map List.flatten) ∧
    ([Ty.bool, Ty.uint 64] = [Ty.bool, Ty.uint 64] →
      serialize_to_storage_initializers 2 hash0
          (.mk (.struct 0) (.struct [.mk .bool (.bool true),
            .mk (.uint 64) (.uint 5)])) ctxBoolU64 0 (.struct 0) [] =
        .ok [⟨get_storage_key hash0 0 ([] ++ [0]),
              List.replicate 31 0 ++ [if true then 1 else 0]⟩,
             ⟨get_storage_key hash0 0 ([] ++ [1]),
              List.replicate 24 0 ++ beBytes 8 5⟩])) :=
  ⟨rfl, serialize_struct_fields 0 hash0 ctxBoolU64 0 [] 0 (.struct 0)
    (.struct 0) .bool (.uint 64) [boolTrueC, uintFiveC]
    [Ty.bool, Ty.uint 64] true 5 rfl⟩

/-- Claim C10: when a struct constant's sub-constant list and the declared
field-type list differ in length, both serializers silently keep only the
common prefix of length `min(len(sub-constants), len(field_types))` and
drop the excess entries without signalling any error: the output equals the
concatenation over that common prefix only. -/
theorem serialize_struct_zip_truncates (fuel : Nat) (hash : String → Bytes32)
    (context : Context) (ix : Nat) (indices : List Nat) (agg : Nat) (cty : Ty)
    (vec : List Constant) (field_tys : List Ty)
    (hagg : context.aggregates.get? agg = some (.fieldTypes field_tys)) :
    serialize_to_words (fuel + 1) (.mk cty (.struct vec)) context
        (.struct agg) =
      (((vec.take (min vec.length field_tys.length)).zip
          (field_tys.take (min vec.length field_tys.length))).mapM
        (fun p => serialize_to_words fuel p.1 context p.2)).map List.flatten ∧
    serialize_to_storage_initializers (fuel + 1) hash (.mk cty (.struct vec))
        context ix (.struct agg) indices =
      ((((vec.take (min vec.length field_tys.length)).zip
          (field_tys.take (min vec.length field_tys.length))).enum.mapM
        (fun p => serialize_to_storage_initializers fuel hash p.2.1 context ix
          p.2.2 (indices ++ [p.1]))).map List.flatten) := by
  constructor
  · simp only [serialize_to_words, Constant.value, hagg]
    rw [← zip_take_min]
  · simp only [serialize_to_storage_initializers, Constant.value, hagg]
    rw [← zip_take_min]

/-- Witness for claim C10: a struct constant with two sub-constants against
a declared field list with a single `bool` field (common prefix length 1). -/
theorem serialize_struct_zip_truncates_witness :
    (Context.mk [.fieldTypes [Ty.bool]]).aggregates.get? 0 =
      some (.fieldTypes [Ty.bool]) ∧
    (serialize_to_words 1 (.mk (.struct 0) (.struct [boolTrueC, uintFiveC]))
        ⟨[.fieldTypes [Ty.bool]]⟩ (.struct 0) =
      ((([boolTrueC, uintFiveC].take
            (min [boolTrueC, uintFiveC].length [Ty.bool].length)).zip
          ([Ty.bool].take
            (min [boolTrueC, uintFiveC].length [Ty.bool].length))).mapM
        (fun p => serialize_to_words 0 p.1 ⟨[.fieldTypes [Ty.bool]]⟩ p.2)).map
          List.flatten ∧
    serialize_to_storage_initializers 1 hash0
        (.mk (.struct 0) (.struct [boolTrueC, uintFiveC]))
        ⟨[.fieldTypes [Ty.bool]]⟩ 0 (.struct 0) [] =
      (((([boolTrueC, uintFiveC].take
            (min [boolTrueC, uintFiveC].length [Ty.bool].length)).zip
          ([Ty.bool].take
            (min [boolTrueC, uintFiveC].length [Ty.bool].length))).enum.mapM
        (fun p => serialize_to_storage_initializers 0 hash0 p.2.1
          ⟨[.fieldTypes [Ty.bool]]⟩ 0 p.2.2 ([] ++ [p.1]))).map
          List.flatten)) :=
  ⟨rfl, serialize_struct_zip_truncates 0 hash0 ⟨[.fieldTypes [Ty.bool]]⟩ 0 []
    0 (.struct 0) [boolTrueC, uintFiveC] [Ty.bool] rfl⟩

theorem packed_arm_count (fuel : Nat) (hash : String → Bytes32) (c : Constant)
    (context : Context) (ix : Nat) (ty : Ty) (indices : List Nat)
    (words : List Bytes8)
    (hw : serialize_to_words fuel c context ty = .ok words)
    (hkey : beNat (get_storage_key hash ix indices) +
      (ir_type_size_in_bytes fuel context ty + 31) / 32 < 2 ^ 256) :
    ∃ l, packed_arm fuel hash c context ix ty indices = .ok l ∧
      l.length = min ((ir_type_size_in_bytes fuel context ty + 31) / 32)
        ((words.length + 3) / 4) := by
  have hplen : (words ++ List.replicate
      ((words.length + 3) / 4 * 4 - words.length) zeroWord).length =
      (words.length + 3) / 4 * 4 := by
    simp only [List.length_append, List.length_replicate]
    omega
  have hmod : (words ++ List.replicate
      ((words.length + 3) / 4 * 4 - words.length) zeroWord).length % 4 = 0 := by
    rw [hplen]; omega
  have hdiv : (words ++ List.replicate
      ((words.length + 3) / 4 * 4 - words.length) zeroWord).length / 4 =
      (words.length + 3) / 4 := by
    rw [hplen]; omega
  have harm : packed_arm fuel hash c context ix ty indices =
      (List.range (min ((ir_type_size_in_bytes fuel context ty + 31) / 32)
        ((words.length + 3) / 4))).mapM
        (fun i =>
          match add_to_b256 (get_storage_key hash ix indices) i with
          | some k =>
            .ok ⟨k, (((words ++ List.replicate
              ((words.length + 3) / 4 * 4 - words.length) zeroWord).drop
                (4 * i)).take 4).flatten⟩
          | none => .error .overflowPanic) := by
    unfold packed_arm
    rw [hw]
    show (if _ then _ else _) = _
    rw [if_pos hmod, hdiv]
  rw [harm]
  rw [mapM_ok _ (fun i =>
    (⟨beBytes 32 (beNat (get_storage_key hash ix indices) + i),
      (((words ++ List.replicate ((words.length + 3) / 4 * 4 - words.length)
        zeroWord).drop (4 * i)).take 4).flatten⟩ : StorageInitializer)) _ ?_]
  · refine ⟨_, rfl, by simp⟩
  · intro i hi
    have hlt : i < min ((ir_type_size_in_bytes fuel context ty + 31) / 32)
        ((words.length + 3) / 4) := List.mem_range.mp hi
    have : beNat (get_storage_key hash ix indices) + i < 2 ^ 256 := by
      have := Nat.min_le_left ((ir_type_size_in_bytes fuel context ty + 31) / 32)
        ((words.length + 3) / 4)
      omega
    rw [add_to_b256, if_pos this]

/-- The `(Type::Union(_), _) | (Type::String(_), _)` arm is taken by every
union- or string-typed constant whose value is not `Undef`. -/
theorem initializers_packed_arm (fuel : Nat) (hash : String → Bytes32)
    (context : Context) (ix : Nat) (indices : List Nat) (cty : Ty)
    (cv : ConstantValue) (ty : Ty)
    (hcv : cv ≠ .undef)
    (hty : (∃ a, ty = Ty.union a) ∨ ∃ n, ty = Ty.string n) :
    serialize_to_storage_initializers (fuel + 1) hash (.mk cty cv) context ix
        ty indices =
      packed_arm fuel hash (.mk cty cv) context ix ty indices := by
  rcases hty with ⟨a, rfl⟩ | ⟨n, rfl⟩ <;>
    cases cv <;> first | rfl | exact absurd rfl hcv

/-- Claim C2 (amended): in the union/string arm the padded word count is
`4 · ⌈words / 4⌉`, always a multiple of 4, so the function's assertion —
which checks exactly this divisibility, not agreement with the slot count —
always passes; the function then emits `min(slot_count, padded_words / 4)`
pairs, silently truncating to the shorter of the key and value sequences
instead of aborting when the padded word count differs from
`4 × slot_count`. -/
theorem serialize_packed_count (fuel : Nat) (hash : String → Bytes32)
    (context : Context) (ix : Nat) (indices : List Nat) (cty : Ty)
    (cv : ConstantValue) (ty : Ty) (words : List Bytes8)
    (hcv : cv ≠ .undef)
    (hty : (∃ a, ty = Ty.union a) ∨ ∃ n, ty = Ty.string n)
    (hw : serialize_to_words fuel (.mk cty cv) context ty = .ok words)
    (hkey : beNat (get_storage_key hash ix indices) +
      (ir_type_size_in_bytes fuel context ty + 31) / 32 < 2 ^ 256) :
    (words.length + 3) / 4 * 4 % 4 = 0 ∧
    ∃ l, serialize_to_storage_initializers (fuel + 1) hash (.mk cty cv)
        context ix ty indices = .ok l ∧
      l.length = min ((ir_type_size_in_bytes fuel context ty + 31) / 32)
        ((words.length + 3) / 4) := by
  refine ⟨by omega, ?_⟩
  rw [initializers_packed_arm fuel hash context ix indices cty cv ty hcv hty]
  exact packed_arm_count fuel hash (.mk cty cv) context ix ty indices words hw
    hkey

/-- Witness for the amended claim C2: a 32-byte string filling its declared
capacity yields exactly `min(1, 1) = 1` initializer. -/
theorem serialize_packed_count_witness :
    beNat (get_storage_key hash0 0 []) +
      (ir_type_size_in_bytes 3 ⟨[]⟩ (.string 32) + 31) / 32 < 2 ^ 256 ∧
    (((List.replicate 4 (List.replicate 8 (97 : Nat))).length + 3) / 4 * 4 % 4
        = 0 ∧
    ∃ l, serialize_to_storage_initializers 4 hash0
        (.mk (.string 32) (.string (List.replicate 32 97))) ⟨[]⟩ 0
        (.string 32) [] = .ok l ∧
      l.length = min ((ir_type_size_in_bytes 3 ⟨[]⟩ (.string 32) + 31) / 32)
        (((List.replicate 4 (List.replicate 8 (97 : Nat))).length + 3) / 4)) :=
  ⟨by decide, serialize_packed_count 3 hash0 ⟨[]⟩ 0 [] (.string 32)
    (.string (List.replicate 32 97)) (.string 32)
    (List.replicate 4 (List.replicate 8 97))
    (fun h => ConstantValue.noConfusion h) (Or.inr ⟨32, rfl⟩) rfl (by decide)⟩

/-- Claim C2, counterexample: an 8-byte string constant declared at capacity
40 packs to 4 padded words while the slot count is 2; the padded word count
(4) differs from `4 × slot_count` (8), yet the function does not abort — it
silently emits a single (slot, value) pair. -/
theorem serialize_packed_truncation_counterexample :
    serialize_to_storage_initializers 3 hash0
        (.mk (.string 40) (.string (List.replicate 8 97))) ⟨[]⟩ 0
        (.string 40) [] =
      .ok [⟨List.replicate 32 0, List.replicate 8 97 ++ List.replicate 24 0⟩] ∧
    (ir_type_size_in_bytes 3 ⟨[]⟩ (.string 40) + 31) / 32 = 2 ∧
    (serialize_to_words 3 (.mk (.string 40) (.string (List.replicate 8 97)))
        ⟨[]⟩ (.string 40)).map List.length = .ok 1 :=
  ⟨rfl, rfl, rfl⟩

/-- Claim C7: for a union-typed, defined constant whose own size (per
`ir_type_size_in_bytes`) does not exceed the union's declared size, the
internal size assertion passes (word counts are monotone under division by
8) and `serialize_to_words` returns
`(union_size_in_words − constant_size_in_words)` zero-filled words followed
by the recursive word encoding of the constant at its own narrower type. -/
theorem serialize_to_words_union (fuel : Nat) (context : Context) (agg : Nat)
    (cty : Ty) (cv : ConstantValue)
    (hcv : cv ≠ ConstantValue.undef)
    (hle : ir_type_size_in_bytes fuel context cty ≤
      ir_type_size_in_bytes fuel context (.union agg)) :
    serialize_to_words (fuel + 1) (.mk cty cv) context (.union agg) =
      (serialize_to_words fuel (.mk cty cv) context cty).map
        (fun ws =>
          List.replicate (ir_type_size_in_bytes fuel context (.union agg) / 8 -
            ir_type_size_in_bytes fuel context cty / 8) zeroWord ++ ws) := by
  have hwords : ir_type_size_in_bytes fuel context cty / 8 ≤
      ir_type_size_in_bytes fuel context (.union agg) / 8 :=
    Nat.div_le_div_right hle
  cases cv
  case undef => exact absurd rfl hcv
  all_goals
    simp only [serialize_to_words, Constant.value, Constant.ty]
    rw [if_pos hwords]

/-- Witness for claim C7: the constant `5 : u64` inside the union
`{u64, b256}`: one payload word left-padded with three zero words. -/
theorem serialize_to_words_union_witness :
    ir_type_size_in_bytes 2 ctxUnionU64B256 (.uint 64) ≤
      ir_type_size_in_bytes 2 ctxUnionU64B256 (.union 0) ∧
    serialize_to_words 3 (.mk (.uint 64) (.uint 5)) ctxUnionU64B256
        (.union 0) =
      (serialize_to_words 2 (.mk (.uint 64) (.uint 5)) ctxUnionU64B256
        (.uint 64)).map
        (fun ws =>
          List.replicate
            (ir_type_size_in_bytes 2 ctxUnionU64B256 (.union 0) / 8 -
              ir_type_size_in_bytes 2 ctxUnionU64B256 (.uint 64) / 8)
            zeroWord ++ ws) :=
  ⟨by decide, serialize_to_words_union 2 ctxUnionU64B256 0 (.uint 64)
    (.uint 5) (fun h => ConstantValue.noConfusion h) (by decide)⟩

end SwayStorage
